import Mathlib

/-!
Verification of the Telegram auto message sender's credential validation,
phone-number formatting, mock auth engine, and template processing.

Each definition is a shallow embedding of the corresponding TypeScript
function; JavaScript strings are modelled as Lean `String` (a list of
characters), regular-expression tests as explicit character predicates,
and the `Date.now()`/`Math.random()`-generated session string as an
explicit `freshSession` argument.
-/

/-- JavaScript whitespace class `\s` (also used by `String.prototype.trim`):
space, tab, LF, VT, FF, CR, NBSP, Ogham space, the U+2000..U+200A range,
line/paragraph separators, narrow NBSP, math space, ideographic space, BOM. -/
def isJsSpace (c : Char) : Bool :=
  let n := c.val.toNat
  n = 32 || n = 9 || n = 10 || n = 11 || n = 12 || n = 13 ||
  n = 0xa0 || n = 0x1680 || (0x2000 ≤ n && n ≤ 0x200a) ||
  n = 0x2028 || n = 0x2029 || n = 0x202f || n = 0x205f || n = 0x3000 || n = 0xfeff

/-- The regex test `^\d+$`: non-empty, all ASCII digits. -/
def reAllDigits (s : String) : Bool :=
  !s.data.isEmpty && s.data.all Char.isDigit

/-- One character of the class `[a-f0-9]`. -/
def isLowerHex (c : Char) : Bool :=
  c.isDigit || ('a' ≤ c && c ≤ 'f')

/-- The regex test `^[a-f0-9]{32}$`. -/
def reHash32 (s : String) : Bool :=
  s.data.length == 32 && s.data.all isLowerHex

/-- The regex test `^\+\d{10,15}$`. -/
def rePhone (s : String) : Bool :=
  match s.data with
  | '+' :: rest => decide (10 ≤ rest.length) && decide (rest.length ≤ 15) && rest.all Char.isDigit
  | _ => false

/-- The regex test `^\d{5}$`. -/
def reFiveDigits (s : String) : Bool :=
  s.data.length == 5 && s.data.all Char.isDigit

/-- Dashboard.tsx: `TelegramCredentials`. -/
structure TelegramCredentials where
  apiId : String
  apiHash : String
  phoneNumber : String
deriving DecidableEq, Repr

/-- Dashboard.tsx: the return type of `TelegramAPI.validateCredentials`. -/
structure ValidationResult where
  isValid : Bool
  errors : List String
deriving DecidableEq, Repr

/-- The `// Validate API ID` block of `TelegramAPI.validateCredentials`:
an `if / else if / else if` chain, so at most one error is pushed.
JavaScript's falsiness test `!credentials.apiId` is emptiness for strings. -/
def apiIdErrors (apiId : String) : List String :=
  if apiId = "" then ["API ID is required"]
  else if !reAllDigits apiId then ["API ID must be numeric (e.g., 1234567)"]
  else if apiId.length < 6 || apiId.length > 8 then ["API ID should be 6-8 digits long"]
  else []

/-- The `// Validate API Hash` block of `TelegramAPI.validateCredentials`. -/
def apiHashErrors (apiHash : String) : List String :=
  if apiHash = "" then ["API Hash is required"]
  else if !reHash32 apiHash then ["API Hash must be exactly 32 hexadecimal characters (a-f, 0-9)"]
  else []

/-- The `// Validate Phone Number` block of `TelegramAPI.validateCredentials`. -/
def phoneNumberErrors (phoneNumber : String) : List String :=
  if phoneNumber = "" then ["Phone number is required"]
  else if !rePhone phoneNumber then ["Phone number must include country code (e.g., +1234567890)"]
  else []

/-- Dashboard.tsx: `TelegramAPI.validateCredentials`.  The source pushes
into one `errors` array, one block per field, and finally returns
`isValid: errors.length === 0`; the sequential pushes amount to the
concatenation of the three per-field blocks. -/
def validateCredentials (credentials : TelegramCredentials) : ValidationResult :=
  let errors := apiIdErrors credentials.apiId ++ apiHashErrors credentials.apiHash ++
    phoneNumberErrors credentials.phoneNumber
  { isValid := errors.isEmpty, errors := errors }

/-- Dashboard.tsx: `TelegramAPI.formatPhoneNumber`.
`phone.replace(/[^\d+]/g, '')` keeps every digit and every `+` (not only a
leading one); then `+` is prepended when the cleaned string does not start
with `+` (`cleaned.startsWith('+')` is `head? = some '+'`). -/
def formatPhoneNumber (phone : String) : String :=
  if (phone.data.filter (fun c => c.isDigit || c == '+')).head? = some '+' then
    String.mk (phone.data.filter (fun c => c.isDigit || c == '+'))
  else
    String.mk ('+' :: phone.data.filter (fun c => c.isDigit || c == '+'))

/-- The `user` object returned by the mock engine on successful auth. -/
structure TgUser where
  id : Nat
  firstName : String
  lastName : String
  username : String
  phone : String
deriving DecidableEq, Repr

/-- The engine's `TelegramAuthResponse` shape (part_000 / Dashboard.tsx). -/
structure TelegramAuthResponse where
  success : Bool
  message : String
  sessionString : Option String := none
  requiresPassword : Option Bool := none
  user : Option TgUser := none
  error : Option String := none
deriving DecidableEq, Repr

/-- part_000: `sendVerificationCode`.  Format guards run first, then the
simulated scenarios keyed on `apiId === '12345'` and
`phoneNumber === '+1234567890'`.  The `catch` branch (SEND_CODE_FAILED) is
unreachable in this pure model and is omitted. -/
def sendVerificationCode (apiId apiHash phoneNumber : String) : TelegramAuthResponse :=
  if !reAllDigits apiId then
    { success := false, message := "Invalid API ID format. Must be numeric.",
      error := some "INVALID_API_ID" }
  else if !reHash32 apiHash then
    { success := false,
      message := "Invalid API Hash format. Must be 32 character hexadecimal string.",
      error := some "INVALID_API_HASH" }
  else if !rePhone phoneNumber then
    { success := false,
      message := "Invalid phone number format. Must include country code (e.g., +1234567890).",
      error := some "INVALID_PHONE" }
  else if apiId = "12345" then
    { success := false, message := "Invalid API credentials. Please check your API ID and Hash.",
      error := some "INVALID_CREDENTIALS" }
  else if phoneNumber = "+1234567890" then
    { success := false, message := "Phone number not registered with Telegram.",
      error := some "PHONE_NOT_REGISTERED" }
  else
    { success := true,
      message := "Verification code sent successfully. Please check your Telegram app." }

/-- part_000: `verifyCode`.  The five-digit format guard is the first
statement; only after it does the simulated verification (the awaited
delay standing in for the network round-trip) run.  The second component
records whether execution reached that simulated verification, and
`freshSession` stands for the `Date.now()`/`Math.random()` session string. -/
def verifyCode (apiId apiHash phoneNumber code freshSession : String) :
    TelegramAuthResponse × Bool :=
  if !reFiveDigits code then
    ({ success := false, message := "Invalid verification code format. Must be 5 digits.",
       error := some "INVALID_CODE_FORMAT" }, false)
  else if code = "12345" then
    ({ success := false, message := "Invalid verification code. Please try again.",
       error := some "INVALID_CODE" }, true)
  else if code = "54321" then
    ({ success := false,
       message := "Two-factor authentication is enabled. Please enter your password.",
       requiresPassword := some true, error := some "REQUIRES_PASSWORD" }, true)
  else
    ({ success := true, message := "Successfully authenticated with Telegram!",
       sessionString := some freshSession,
       user := some { id := 123456789, firstName := "User", lastName := "Name",
                      username := "username", phone := phoneNumber } }, true)

/-- GroupManagement.tsx `AccountSetup`: the state flags that drive the auth
flow (`account.isConnected`, `showVerification`, `showTwoFactor`,
`account.sessionString`). -/
structure AccountState where
  isConnected : Bool
  showVerification : Bool
  showTwoFactor : Bool
  sessionString : Option String
deriving DecidableEq, Repr

/-- GroupManagement.tsx: the result handling of `verifyTelegramCode`:
on `result.success` the account becomes connected and the verification
dialog closes; otherwise, when `result.requiresPassword` is truthy, the
two-factor dialog opens; otherwise only a toast is shown. -/
def applyVerifyResult (st : AccountState) (r : TelegramAuthResponse) : AccountState :=
  if r.success then
    { st with isConnected := true, sessionString := r.sessionString, showVerification := false }
  else if r.requiresPassword = some true then
    { st with showTwoFactor := true }
  else st

/-- GroupManagement.tsx: the result handling of `sendTelegramCode`:
on `result.success` the verification dialog opens; on failure only a toast
(and possibly a validation-error banner) is shown, no flag changes. -/
def applySendCodeResult (st : AccountState) (r : TelegramAuthResponse) : AccountState :=
  if r.success then { st with showVerification := true } else st

/-- The spec's session states. -/
inductive AuthState where
  | unauthenticated
  | codeSent
  | awaitingPassword
  | authenticated
deriving DecidableEq, Repr

/-- Modelled from the spec: the spec's `Session.state` names read off the
UI flags of `AccountSetup` (the reference implementation keeps no explicit
state enum): connected means `Authenticated`, an open two-factor dialog
means `AwaitingPassword`, an open verification dialog means `CodeSent`,
and otherwise the session is `Unauthenticated`. -/
def authStateOf (st : AccountState) : AuthState :=
  if st.isConnected then .authenticated
  else if st.showTwoFactor then .awaitingPassword
  else if st.showVerification then .codeSent
  else .unauthenticated

/-- JavaScript `String.prototype.trim` on a character list: drop the
whitespace (`isJsSpace`) from both ends. -/
def jsTrim (l : List Char) : List Char :=
  ((l.dropWhile isJsSpace).reverse.dropWhile isJsSpace).reverse

/-- Logs.tsx `extractVariables`: the scanning loop of
`/\{\{([^}]+)\}\}/g.exec`.  At each position the pattern needs two
opening braces, a non-empty run of non-closing-brace characters, and two
closing braces; on a match the scan resumes after the match
(`regex.lastIndex`), on a mismatch at the next character.  `fuel` bounds
the recursion and is initialised to the string length, which the scan
never exhausts since every step consumes at least one character. -/
def scanGo : Nat → List Char → List (List Char)
  | 0, _ => []
  | fuel + 1, s =>
    match s with
    | c1 :: c2 :: t =>
      if c1 = '{' ∧ c2 = '{' then
        let run := t.takeWhile (fun c => c ≠ '}')
        let rest := t.dropWhile (fun c => c ≠ '}')
        if run ≠ [] then
          match rest with
          | r1 :: r2 :: rest2 =>
            if r1 = '}' ∧ r2 = '}' then run :: scanGo fuel rest2
            else scanGo fuel (c2 :: t)
          | _ => scanGo fuel (c2 :: t)
        else scanGo fuel (c2 :: t)
      else scanGo fuel (c2 :: t)
    | _ => []

/-- The raw capture groups of `/\{\{([^}]+)\}\}/g` over a character list. -/
def scanTokens (s : List Char) : List (List Char) :=
  scanGo s.length s

/-- The trimmed token names pushed into `matches` by `extractVariables`
(`matches.push(match[1].trim())`), in scan order, duplicates included. -/
def tokenNames (content : String) : List String :=
  (scanTokens content.data).map (fun t => String.mk (jsTrim t))

/-- `[...new Set(xs)]`: JavaScript `Set` iteration is insertion order, so
spreading a `Set` keeps the first occurrence of each element and drops the
later duplicates. -/
def dedupAux (seen : List String) : List String → List String
  | [] => []
  | x :: xs => if x ∈ seen then dedupAux seen xs else x :: dedupAux (x :: seen) xs

/-- `[...new Set(xs)]` with an empty set to start from. -/
def dedupFirst (l : List String) : List String :=
  dedupAux [] l

/-- Logs.tsx: `extractVariables` — trimmed capture groups of the global
regex scan, then `[...new Set(matches)]`. -/
def extractVariables (content : String) : List String :=
  dedupFirst (tokenNames content)

/-- `listStarts a b`: `a` is a leading block of `b` (used for the literal
part of the constructed per-key regex). -/
def listStarts : List Char → List Char → Bool
  | [], _ => true
  | _ :: _, [] => false
  | a :: as, b :: bs => a == b && listStarts as bs

/-- After the opening braces and `n` skipped whitespace characters, try to
match the literal key, then `\s*`, then the two closing braces; returns
the number of characters consumed after the opening braces. -/
def matchRest (key t : List Char) (n : Nat) : Option Nat :=
  if listStarts key (t.drop n) then
    let t2 := (t.drop n).drop key.length
    let m := (t2.takeWhile isJsSpace).length
    match t2.drop m with
    | a :: b :: _ => if a = '}' ∧ b = '}' then some (n + key.length + m + 2) else none
    | _ => none
  else none

/-- The backtracking of the first greedy `\s*` of
`\{\{\s*key\s*\}\}`: try the longest whitespace run first, then
shorter ones. -/
def pickN (key t : List Char) : Nat → Option Nat
  | 0 => matchRest key t 0
  | n + 1 =>
    match matchRest key t (n + 1) with
    | some L => some L
    | none => pickN key t n

/-- Attempt to match `\{\{\s*key\s*\}\}` at the head of `s`; on success
returns the length of the match.  The key is inserted into the regex with
every metacharacter escaped, so it matches as a literal. -/
def tryMatch (key s : List Char) : Option Nat :=
  match s with
  | c1 :: c2 :: t =>
    if c1 = '{' ∧ c2 = '{' then
      match pickN key t ((t.takeWhile isJsSpace).length) with
      | some L => some (2 + L)
      | none => none
    else none
  | _ => none

/-- JavaScript replacement-string expansion for `String.prototype.replace`:
`$$` is a dollar sign, `$&` the matched text, a backquoted dollar the
portion before the match, a quoted dollar the portion after it; the
constructed regex has no capture groups, so `$1`..`$9` stay literal. -/
def expandRepl (matched before after : List Char) : List Char → List Char
  | [] => []
  | [c] => [c]
  | c :: d :: rest =>
    if c = '$' then
      if d = '$' then '$' :: expandRepl matched before after rest
      else if d = '&' then matched ++ expandRepl matched before after rest
      else if d = Char.ofNat 96 then before ++ expandRepl matched before after rest
      else if d = Char.ofNat 39 then after ++ expandRepl matched before after rest
      else '$' :: d :: expandRepl matched before after rest
    else c :: expandRepl matched before after (d :: rest)

/-- The scan of `processed.replace(regex, replacement)` with a global
regex: find the leftmost match, emit the expanded replacement, resume
after the match; characters before a match are copied.  `B` accumulates
the consumed part of the input (the match's left context).  `fuel` bounds
the recursion and is initialised to the string length, which suffices
since every step consumes at least one character. -/
def goReplace (key repl : List Char) : Nat → List Char → List Char → List Char
  | 0, _, s => s
  | fuel + 1, B, s =>
    match tryMatch key s with
    | some L => expandRepl (s.take L) B (s.drop L) repl ++
        goReplace key repl fuel (B ++ s.take L) (s.drop L)
    | none =>
      match s with
      | [] => []
      | c :: t => c :: goReplace key repl fuel (B ++ [c]) t

/-- One `processed.replace(new RegExp(..., 'g'), value || ...)` pass. -/
def replaceAll (key repl s : List Char) : List Char :=
  goReplace key repl s.length [] s

/-- The replacement text for one entry: `value || ` a bracketed key —
JavaScript `||` takes the fallback exactly when `value` is the empty
string. -/
def replTextOf (key value : String) : List Char :=
  if value = "" then '[' :: (key.data ++ [']']) else value.data

/-- Logs.tsx: `processTemplate` — fold the per-entry global replacement
over the `Object.entries` of the variables map (modelled as the ordered
list of its entries). -/
def processTemplate (content : String) (vars : List (String × String)) : String :=
  String.mk (vars.foldl (fun acc kv => replaceAll kv.1.data (replTextOf kv.1 kv.2) acc)
    content.data)

/-- A template fragment: either literal text or a `{{name}}` placeholder. -/
inductive Seg where
  | plain (p : List Char)
  | ph (k : List Char)
deriving DecidableEq, Repr

/-- Well-formedness used by the amended C10 statement: literal text is
brace-free, placeholder names are brace-free and whitespace-free. -/
def WfSeg : Seg → Prop
  | .plain p => ∀ c ∈ p, c ≠ '{' ∧ c ≠ '}'
  | .ph k => ∀ c ∈ k, c ≠ '{' ∧ c ≠ '}' ∧ isJsSpace c = false

/-- Flatten a segment list into the template text. -/
def joinSegs : List Seg → List Char
  | [] => []
  | .plain p :: rest => p ++ joinSegs rest
  | .ph k :: rest => '{' :: '{' :: (k ++ '}' :: '}' :: joinSegs rest)

/-- The declarative substitution the amended C10 statement compares
`processTemplate` against: a placeholder of a supplied key becomes the
key's value (or the bracketed key when the value is empty, first matching
entry winning), every other segment is untouched. -/
def substSeg (vars : List (String × String)) : Seg → Seg
  | .plain p => .plain p
  | .ph k =>
    match vars.find? (fun kv => kv.1.data == k) with
    | some kv => .plain (replTextOf kv.1 kv.2)
    | none => .ph k

/-- A string free of braces and dollar signs (safe to splice into a
template without creating or altering placeholders). -/
def SafeStr (s : String) : Prop :=
  ∀ c ∈ s.data, c ≠ '{' ∧ c ≠ '}' ∧ c ≠ '$'

/-- The effect of one replacement pass on one segment: the placeholder of
exactly the pass's key becomes the replacement text, everything else is
untouched. -/
def pass1 (key repl : List Char) : Seg → Seg
  | .plain p => .plain p
  | .ph k => if k = key then .plain repl else .ph k

instance (sg : Seg) : Decidable (WfSeg sg) :=
  match sg with
  | .plain p => inferInstanceAs (Decidable (∀ c ∈ p, c ≠ '{' ∧ c ≠ '}'))
  | .ph k => inferInstanceAs (Decidable (∀ c ∈ k, c ≠ '{' ∧ c ≠ '}' ∧ isJsSpace c = false))

instance (s : String) : Decidable (SafeStr s) :=
  inferInstanceAs (Decidable (∀ c ∈ s.data, c ≠ '{' ∧ c ≠ '}' ∧ c ≠ '$'))

/-- The spec's format rules for `apiId`: matches `^\d+$` and has length in
[6,8] (the required-rule is subsumed: a match of `^\d+$` is non-empty). -/
abbrev apiIdOk (a : String) : Prop :=
  reAllDigits a = true ∧ 6 ≤ a.length ∧ a.length ≤ 8

/-- The spec's format rule for `apiHash`: matches `^[a-f0-9]{32}$`. -/
abbrev apiHashOk (h : String) : Prop :=
  reHash32 h = true

/-- The spec's format rule for `phoneNumber`: matches `^\+\d{10,15}$`. -/
abbrev phoneNumberOk (p : String) : Prop :=
  rePhone p = true

/-- The three error strings the apiId block can push. -/
def apiIdErrorStrings : List String :=
  ["API ID is required", "API ID must be numeric (e.g., 1234567)",
   "API ID should be 6-8 digits long"]

/-- The two error strings the apiHash block can push. -/
def apiHashErrorStrings : List String :=
  ["API Hash is required", "API Hash must be exactly 32 hexadecimal characters (a-f, 0-9)"]

/-- The two error strings the phone-number block can push. -/
def phoneErrorStrings : List String :=
  ["Phone number is required", "Phone number must include country code (e.g., +1234567890)"]

lemma apiIdErrors_nil_of_ok {a : String} (h : apiIdOk a) : apiIdErrors a = [] := by
  obtain ⟨h1, h2, h3⟩ := h
  have ha : a ≠ "" := by
    intro he
    rw [he] at h1
    exact absurd h1 (by decide)
  have hlen : (a.length < 6 || a.length > 8) = false := by
    simp only [Bool.or_eq_false_iff, decide_eq_false_iff_not]
    omega
  simp [apiIdErrors, ha, h1, hlen]

lemma apiHashErrors_nil_of_ok {h : String} (hh : apiHashOk h) : apiHashErrors h = [] := by
  have hh' : reHash32 h = true := hh
  have ha : h ≠ "" := by
    intro he
    rw [he] at hh'
    exact absurd hh' (by decide)
  simp [apiHashErrors, ha, hh']

lemma phoneNumberErrors_nil_of_ok {p : String} (hp : phoneNumberOk p) :
    phoneNumberErrors p = [] := by
  have hp' : rePhone p = true := hp
  have ha : p ≠ "" := by
    intro he
    rw [he] at hp'
    exact absurd hp' (by decide)
  simp [phoneNumberErrors, ha, hp']

lemma apiIdErrors_singleton_of_bad {a : String} (h : ¬ apiIdOk a) :
    ∃ e, apiIdErrors a = [e] ∧ e ∈ apiIdErrorStrings := by
  by_cases ha : a = ""
  · exact ⟨"API ID is required", by simp [apiIdErrors, ha], by simp [apiIdErrorStrings]⟩
  · by_cases hd : reAllDigits a
    · have hlen : a.length < 6 ∨ a.length > 8 := by
        by_contra hc
        push_neg at hc
        exact h ⟨hd, by omega, by omega⟩
      have hlen' : (a.length < 6 || a.length > 8) = true := by
        simp only [Bool.or_eq_true, decide_eq_true_eq]
        omega
      exact ⟨"API ID should be 6-8 digits long",
        by simp [apiIdErrors, ha, hd, hlen'], by simp [apiIdErrorStrings]⟩
    · exact ⟨"API ID must be numeric (e.g., 1234567)",
        by simp [apiIdErrors, ha, hd], by simp [apiIdErrorStrings]⟩

lemma apiHashErrors_singleton_of_bad {h : String} (hh : ¬ apiHashOk h) :
    ∃ e, apiHashErrors h = [e] ∧ e ∈ apiHashErrorStrings := by
  by_cases ha : h = ""
  · exact ⟨"API Hash is required", by simp [apiHashErrors, ha], by simp [apiHashErrorStrings]⟩
  · have hr : reHash32 h = false := by
      cases hx : reHash32 h
      · rfl
      · exact absurd hx hh
    exact ⟨"API Hash must be exactly 32 hexadecimal characters (a-f, 0-9)",
      by simp [apiHashErrors, ha, hr], by simp [apiHashErrorStrings]⟩

lemma phoneNumberErrors_singleton_of_bad {p : String} (hp : ¬ phoneNumberOk p) :
    ∃ e, phoneNumberErrors p = [e] ∧ e ∈ phoneErrorStrings := by
  by_cases ha : p = ""
  · exact ⟨"Phone number is required", by simp [phoneNumberErrors, ha], by simp [phoneErrorStrings]⟩
  · have hr : rePhone p = false := by
      cases hx : rePhone p
      · rfl
      · exact absurd hx hp
    exact ⟨"Phone number must include country code (e.g., +1234567890)",
      by simp [phoneNumberErrors, ha, hr], by simp [phoneErrorStrings]⟩

lemma errorStrings_disjoint :
    ∀ e ∈ apiIdErrorStrings, e ∉ apiHashErrorStrings ∧ e ∉ phoneErrorStrings := by
  decide

lemma hashStrings_disjoint :
    ∀ e ∈ apiHashErrorStrings, e ∉ apiIdErrorStrings ∧ e ∉ phoneErrorStrings := by
  decide

lemma phoneStrings_disjoint :
    ∀ e ∈ phoneErrorStrings, e ∉ apiIdErrorStrings ∧ e ∉ apiHashErrorStrings := by
  decide

/-- C1: the claim that `validateCredentials` collects every violated rule
per field fails: `"abc"` violates both the numeric rule and the length
rule of `apiId`, yet only the numeric error is reported — the length
error is absent from the returned list. -/
theorem validateCredentials_not_both_apiId_errors :
    reAllDigits "abc" = false ∧
    ("abc".data.length < 6 ∨ "abc".data.length > 8) ∧
    "API ID must be numeric (e.g., 1234567)" ∈
      (validateCredentials ⟨"abc", "0123456789abcdef0123456789abcdef", "+12345678901"⟩).errors ∧
    "API ID should be 6-8 digits long" ∉
      (validateCredentials ⟨"abc", "0123456789abcdef0123456789abcdef", "+12345678901"⟩).errors := by
  decide

/-- C1 (amended): the three fields are validated independently of one
another and the returned list is the concatenation of their blocks, but
within a field the rules short-circuit: each field contributes at most one
error — the one of its first violated rule; in particular a non-empty,
non-numeric apiId reports only the numeric error. -/
theorem validateCredentials_per_field_first_error (c : TelegramCredentials) :
    (validateCredentials c).errors =
      apiIdErrors c.apiId ++ apiHashErrors c.apiHash ++ phoneNumberErrors c.phoneNumber ∧
    (apiIdErrors c.apiId).length ≤ 1 ∧
    (apiHashErrors c.apiHash).length ≤ 1 ∧
    (phoneNumberErrors c.phoneNumber).length ≤ 1 ∧
    (c.apiId ≠ "" → reAllDigits c.apiId = false →
      apiIdErrors c.apiId = ["API ID must be numeric (e.g., 1234567)"]) := by
  refine ⟨rfl, ?_, ?_, ?_, ?_⟩
  · unfold apiIdErrors
    split
    · simp
    · split
      · simp
      · split <;> simp
  · unfold apiHashErrors
    split
    · simp
    · split <;> simp
  · unfold phoneNumberErrors
    split
    · simp
    · split <;> simp
  · intro h1 h2
    simp [apiIdErrors, h1, h2]

theorem validateCredentials_per_field_first_error_witness :
    "abc" ≠ "" ∧ reAllDigits "abc" = false ∧
    apiIdErrors "abc" = ["API ID must be numeric (e.g., 1234567)"] :=
  ⟨by decide, by decide,
    (validateCredentials_per_field_first_error ⟨"abc", "x", "y"⟩).2.2.2.2 (by decide) (by decide)⟩

/-- C3: all three fields well-formed gives `isValid = true` with an empty
error list; exactly one malformed field gives exactly that field's
specific error string and no error of the other two fields. -/
theorem validateCredentials_valid_and_single_field (a h p : String) :
    (apiIdOk a → apiHashOk h → phoneNumberOk p →
      validateCredentials ⟨a, h, p⟩ = ⟨true, []⟩) ∧
    (¬ apiIdOk a → apiHashOk h → phoneNumberOk p →
      ∃ e, (validateCredentials ⟨a, h, p⟩).errors = [e] ∧ e ∈ apiIdErrorStrings ∧
        e ∉ apiHashErrorStrings ∧ e ∉ phoneErrorStrings) ∧
    (apiIdOk a → ¬ apiHashOk h → phoneNumberOk p →
      ∃ e, (validateCredentials ⟨a, h, p⟩).errors = [e] ∧ e ∈ apiHashErrorStrings ∧
        e ∉ apiIdErrorStrings ∧ e ∉ phoneErrorStrings) ∧
    (apiIdOk a → apiHashOk h → ¬ phoneNumberOk p →
      ∃ e, (validateCredentials ⟨a, h, p⟩).errors = [e] ∧ e ∈ phoneErrorStrings ∧
        e ∉ apiIdErrorStrings ∧ e ∉ apiHashErrorStrings) := by
  refine ⟨?_, ?_, ?_, ?_⟩
  · intro h1 h2 h3
    simp [validateCredentials, apiIdErrors_nil_of_ok h1, apiHashErrors_nil_of_ok h2,
      phoneNumberErrors_nil_of_ok h3]
  · intro h1 h2 h3
    obtain ⟨e, he, hm⟩ := apiIdErrors_singleton_of_bad h1
    exact ⟨e, by simp [validateCredentials, he, apiHashErrors_nil_of_ok h2,
      phoneNumberErrors_nil_of_ok h3], hm, (errorStrings_disjoint e hm).1,
      (errorStrings_disjoint e hm).2⟩
  · intro h1 h2 h3
    obtain ⟨e, he, hm⟩ := apiHashErrors_singleton_of_bad h2
    exact ⟨e, by simp [validateCredentials, he, apiIdErrors_nil_of_ok h1,
      phoneNumberErrors_nil_of_ok h3], hm, (hashStrings_disjoint e hm).1,
      (hashStrings_disjoint e hm).2⟩
  · intro h1 h2 h3
    obtain ⟨e, he, hm⟩ := phoneNumberErrors_singleton_of_bad h3
    exact ⟨e, by simp [validateCredentials, he, apiIdErrors_nil_of_ok h1,
      apiHashErrors_nil_of_ok h2], hm, (phoneStrings_disjoint e hm).1,
      (phoneStrings_disjoint e hm).2⟩

theorem validateCredentials_valid_and_single_field_witness :
    (validateCredentials ⟨"1234567", "0123456789abcdef0123456789abcdef", "+12345678901"⟩ =
      ⟨true, []⟩) ∧
    (∃ e, (validateCredentials
        ⟨"abc", "0123456789abcdef0123456789abcdef", "+12345678901"⟩).errors = [e] ∧
      e ∈ apiIdErrorStrings ∧ e ∉ apiHashErrorStrings ∧ e ∉ phoneErrorStrings) ∧
    (∃ e, (validateCredentials ⟨"1234567", "nothex", "+12345678901"⟩).errors = [e] ∧
      e ∈ apiHashErrorStrings ∧ e ∉ apiIdErrorStrings ∧ e ∉ phoneErrorStrings) ∧
    (∃ e, (validateCredentials
        ⟨"1234567", "0123456789abcdef0123456789abcdef", "12345"⟩).errors = [e] ∧
      e ∈ phoneErrorStrings ∧ e ∉ apiIdErrorStrings ∧ e ∉ apiHashErrorStrings) :=
  ⟨(validateCredentials_valid_and_single_field "1234567" "0123456789abcdef0123456789abcdef"
      "+12345678901").1 (by decide) (by decide) (by decide),
   (validateCredentials_valid_and_single_field "abc" "0123456789abcdef0123456789abcdef"
      "+12345678901").2.1 (by decide) (by decide) (by decide),
   (validateCredentials_valid_and_single_field "1234567" "nothex" "+12345678901").2.2.1
      (by decide) (by decide) (by decide),
   (validateCredentials_valid_and_single_field "1234567" "0123456789abcdef0123456789abcdef"
      "12345").2.2.2 (by decide) (by decide) (by decide)⟩

/-- C9: the `isValid` flag of `validateCredentials` is `true` exactly when
the returned error list is empty. -/
theorem validateCredentials_isValid_iff (c : TelegramCredentials) :
    (validateCredentials c).isValid = true ↔ (validateCredentials c).errors = [] := by
  simp [validateCredentials, List.isEmpty_iff]

lemma mk_data (s : String) : String.mk s.data = s := by
  cases s
  rfl

lemma formatPhoneNumber_data (s : String) :
    (formatPhoneNumber s).data = '+' :: (s.data.filter (fun c => c.isDigit || c == '+')).tail ∨
    (formatPhoneNumber s).data = '+' :: s.data.filter (fun c => c.isDigit || c == '+') := by
  unfold formatPhoneNumber
  split
  · rename_i hhead
    left
    cases hcl : s.data.filter (fun c => c.isDigit || c == '+') with
    | nil => rw [hcl] at hhead; simp at hhead
    | cons c t =>
      rw [hcl] at hhead
      simp only [List.head?_cons, Option.some.injEq] at hhead
      simp [hcl, hhead]
  · right
    rfl

lemma formatPhoneNumber_head (s : String) :
    (formatPhoneNumber s).data.head? = some '+' := by
  rcases formatPhoneNumber_data s with h | h <;> simp [h]

lemma formatPhoneNumber_chars (s : String) :
    ∀ c ∈ (formatPhoneNumber s).data, (c.isDigit || c == '+') = true := by
  intro c hc
  rcases formatPhoneNumber_data s with h | h <;> rw [h] at hc <;>
    rcases List.mem_cons.mp hc with rfl | hc'
  · simp
  · exact (List.mem_filter.mp (List.mem_of_mem_tail hc')).2
  · simp
  · exact (List.mem_filter.mp hc').2

lemma filter_digit_of_filter_keep (l : List Char) :
    (l.filter (fun c => c.isDigit || c == '+')).filter Char.isDigit = l.filter Char.isDigit := by
  rw [List.filter_filter]
  apply List.filter_congr
  intro c _
  cases h : c.isDigit <;> simp [h]

/-- C2 fails: `formatPhoneNumber` keeps a non-leading `+`.  On `"1+2"` the
result is `"+1+2"`, whose characters after the leading `+` are not all
digits, so the result is not one `+` followed only by digits. -/
theorem formatPhoneNumber_keeps_inner_plus :
    formatPhoneNumber "1+2" = "+1+2" ∧
    ¬ (∀ c ∈ (formatPhoneNumber "1+2").data.tail, c.isDigit = true) := by
  decide

/-- C2 (amended): `formatPhoneNumber` strips every character that is
neither a digit nor a `+`, keeping every `+` (not only a leading one), and
prepends `+` when the cleaned string does not already start with it: the
result always starts with `+`, contains only digits and `+` characters,
and preserves the digits of the input in order; it is pure and total. -/
theorem formatPhoneNumber_shape (s : String) :
    (formatPhoneNumber s).data.head? = some '+' ∧
    (∀ c ∈ (formatPhoneNumber s).data, c.isDigit = true ∨ c = '+') ∧
    (formatPhoneNumber s).data.filter Char.isDigit = s.data.filter Char.isDigit := by
  refine ⟨formatPhoneNumber_head s, ?_, ?_⟩
  · intro c hc
    have := formatPhoneNumber_chars s c hc
    rcases Bool.or_eq_true_iff.mp this with h | h
    · exact Or.inl h
    · exact Or.inr (by simpa using h)
  · unfold formatPhoneNumber
    split
    · simp only [String.data]
      rw [filter_digit_of_filter_keep]
    · simp only [String.data, List.filter_cons]
      rw [show ('+').isDigit = false from rfl]
      simp only [Bool.false_eq_true, if_false]
      rw [filter_digit_of_filter_keep]

lemma formatPhoneNumber_fixpoint {t : String} (hhead : t.data.head? = some '+')
    (hchars : ∀ c ∈ t.data, (c.isDigit || c == '+') = true) :
    formatPhoneNumber t = t := by
  have hfix : t.data.filter (fun c => c.isDigit || c == '+') = t.data :=
    List.filter_eq_self.mpr hchars
  unfold formatPhoneNumber
  rw [hfix, hhead]
  simp [mk_data]

/-- C4: `formatPhoneNumber` is idempotent: its output consists only of
digits and plus signs and starts with `+`, and such strings are fixed
points of the function. -/
theorem formatPhoneNumber_idempotent (s : String) :
    formatPhoneNumber (formatPhoneNumber s) = formatPhoneNumber s :=
  formatPhoneNumber_fixpoint (formatPhoneNumber_head s) (formatPhoneNumber_chars s)

/-- C5: for any code that does not match `^\d{5}$`, and any values of the
other arguments, `verifyCode` fails with `INVALID_CODE_FORMAT` before the
simulated verification runs (the second component is `false`: no
code-verification call is consumed). -/
theorem verifyCode_format_guard (apiId apiHash phoneNumber code fresh : String)
    (h : reFiveDigits code = false) :
    verifyCode apiId apiHash phoneNumber code fresh =
      ({ success := false, message := "Invalid verification code format. Must be 5 digits.",
         error := some "INVALID_CODE_FORMAT" }, false) := by
  simp [verifyCode, h]

theorem verifyCode_format_guard_witness :
    reFiveDigits "12a45" = false ∧
    verifyCode "123456" "0123456789abcdef0123456789abcdef" "+12345678901" "12a45" "sess" =
      ({ success := false, message := "Invalid verification code format. Must be 5 digits.",
         error := some "INVALID_CODE_FORMAT" }, false) :=
  ⟨by decide, verifyCode_format_guard "123456" "0123456789abcdef0123456789abcdef"
    "+12345678901" "12a45" "sess" (by decide)⟩

/-- C6: after a successful `sendVerificationCode`, submitting the code
`"54321"` yields `requiresPassword = true` with no session token, and the
client handler moves the flow from the code-entry step to the password
step (`AwaitingPassword`), not to connected and not back to `CodeSent`. -/
theorem verifyCode_54321_requires_password (a h p fresh : String) (st : AccountState)
    (hsend : (sendVerificationCode a h p).success = true)
    (hst : authStateOf st = AuthState.codeSent) :
    ((verifyCode a h p "54321" fresh).1).requiresPassword = some true ∧
    ((verifyCode a h p "54321" fresh).1).sessionString = none ∧
    ((verifyCode a h p "54321" fresh).1).success = false ∧
    authStateOf (applyVerifyResult st ((verifyCode a h p "54321" fresh).1)) =
      AuthState.awaitingPassword := by
  have hr : (verifyCode a h p "54321" fresh).1 =
      { success := false,
        message := "Two-factor authentication is enabled. Please enter your password.",
        requiresPassword := some true, error := some "REQUIRES_PASSWORD" } := by
    simp [verifyCode, show reFiveDigits "54321" = true from by decide,
      show ("54321" : String) ≠ "12345" from by decide]
  obtain ⟨ic, sv, stf, ss⟩ := st
  cases ic <;> cases sv <;> cases stf <;>
    simp_all [authStateOf, applyVerifyResult, hr]

theorem verifyCode_54321_requires_password_witness :
    (sendVerificationCode "123456" "0123456789abcdef0123456789abcdef" "+12345678901").success
      = true ∧
    authStateOf ⟨false, true, false, none⟩ = AuthState.codeSent ∧
    (((verifyCode "123456" "0123456789abcdef0123456789abcdef" "+12345678901" "54321"
        "sess").1).requiresPassword = some true ∧
      ((verifyCode "123456" "0123456789abcdef0123456789abcdef" "+12345678901" "54321"
        "sess").1).sessionString = none ∧
      ((verifyCode "123456" "0123456789abcdef0123456789abcdef" "+12345678901" "54321"
        "sess").1).success = false ∧
      authStateOf (applyVerifyResult ⟨false, true, false, none⟩
        ((verifyCode "123456" "0123456789abcdef0123456789abcdef" "+12345678901" "54321"
          "sess").1)) = AuthState.awaitingPassword) :=
  ⟨by decide, by decide,
    verifyCode_54321_requires_password "123456" "0123456789abcdef0123456789abcdef"
      "+12345678901" "sess" ⟨false, true, false, none⟩ (by decide) (by decide)⟩

/-- C7: `sendVerificationCode` with apiId `"12345"` and otherwise
well-formed apiHash and phoneNumber is the engine's simulated rejection:
`success = false`, error `INVALID_CREDENTIALS`, no session token, and the
client handler leaves an unauthenticated session unauthenticated. -/
theorem sendVerificationCode_12345_rejected (h p : String) (st : AccountState)
    (hh : reHash32 h = true) (hp : rePhone p = true)
    (hst : authStateOf st = AuthState.unauthenticated) :
    sendVerificationCode "12345" h p =
      { success := false,
        message := "Invalid API credentials. Please check your API ID and Hash.",
        error := some "INVALID_CREDENTIALS" } ∧
    (sendVerificationCode "12345" h p).sessionString = none ∧
    authStateOf (applySendCodeResult st (sendVerificationCode "12345" h p)) =
      AuthState.unauthenticated := by
  have hr : sendVerificationCode "12345" h p =
      { success := false,
        message := "Invalid API credentials. Please check your API ID and Hash.",
        error := some "INVALID_CREDENTIALS" } := by
    simp [sendVerificationCode, show reAllDigits "12345" = true from by decide, hh, hp]
  refine ⟨hr, by rw [hr], ?_⟩
  rw [hr]
  obtain ⟨ic, sv, stf, ss⟩ := st
  cases ic <;> cases sv <;> cases stf <;>
    simp_all [authStateOf, applySendCodeResult]

theorem sendVerificationCode_12345_rejected_witness :
    reHash32 "0123456789abcdef0123456789abcdef" = true ∧
    rePhone "+12345678901" = true ∧
    authStateOf ⟨false, false, false, none⟩ = AuthState.unauthenticated ∧
    (sendVerificationCode "12345" "0123456789abcdef0123456789abcdef" "+12345678901" =
      { success := false,
        message := "Invalid API credentials. Please check your API ID and Hash.",
        error := some "INVALID_CREDENTIALS" } ∧
    (sendVerificationCode "12345" "0123456789abcdef0123456789abcdef"
      "+12345678901").sessionString = none ∧
    authStateOf (applySendCodeResult ⟨false, false, false, none⟩
      (sendVerificationCode "12345" "0123456789abcdef0123456789abcdef" "+12345678901")) =
      AuthState.unauthenticated) :=
  ⟨by decide, by decide, by decide,
    sendVerificationCode_12345_rejected "0123456789abcdef0123456789abcdef" "+12345678901"
      ⟨false, false, false, none⟩ (by decide) (by decide) (by decide)⟩

lemma mem_dedupAux {a : String} :
    ∀ (l seen : List String), a ∈ dedupAux seen l ↔ a ∈ l ∧ a ∉ seen := by
  intro l
  induction l with
  | nil => intro seen; simp [dedupAux]
  | cons x xs ih =>
    intro seen
    by_cases hx : x ∈ seen
    · rw [dedupAux, if_pos hx, ih]
      constructor
      · rintro ⟨h1, h2⟩
        exact ⟨List.mem_cons_of_mem x h1, h2⟩
      · rintro ⟨h1, h2⟩
        rcases List.mem_cons.mp h1 with rfl | h1'
        · exact absurd hx h2
        · exact ⟨h1', h2⟩
    · rw [dedupAux, if_neg hx]
      constructor
      · intro hm
        rcases List.mem_cons.mp hm with rfl | hm'
        · exact ⟨List.mem_cons_self a xs, hx⟩
        · obtain ⟨h1, h2⟩ := (ih (x :: seen)).mp hm'
          exact ⟨List.mem_cons_of_mem x h1,
            fun hs => h2 (List.mem_cons_of_mem x hs)⟩
      · rintro ⟨h1, h2⟩
        rcases List.mem_cons.mp h1 with rfl | h1'
        · exact List.mem_cons_self a _
        · by_cases hax : a = x
          · exact hax ▸ List.mem_cons_self x _
          · exact List.mem_cons_of_mem x ((ih (x :: seen)).mpr
              ⟨h1', fun hs => by
                rcases List.mem_cons.mp hs with h | h
                · exact hax h
                · exact h2 h⟩)

lemma nodup_dedupAux : ∀ (l seen : List String), (dedupAux seen l).Nodup := by
  intro l
  induction l with
  | nil => intro seen; simp [dedupAux]
  | cons x xs ih =>
    intro seen
    by_cases hx : x ∈ seen
    · rw [dedupAux, if_pos hx]
      exact ih seen
    · rw [dedupAux, if_neg hx]
      refine List.nodup_cons.mpr ⟨?_, ih (x :: seen)⟩
      intro hm
      exact ((mem_dedupAux xs (x :: seen)).mp hm).2 (List.mem_cons_self x seen)

lemma pairwise_dedupAux :
    ∀ (l seen : List String),
      List.Pairwise (fun a b => l.indexOf a < l.indexOf b) (dedupAux seen l) := by
  intro l
  induction l with
  | nil => intro seen; simp [dedupAux]
  | cons x xs ih =>
    intro seen
    by_cases hx : x ∈ seen
    · rw [dedupAux, if_pos hx]
      refine List.Pairwise.imp_of_mem ?_ (ih seen)
      intro a b ha hb hlt
      have hax : a ≠ x := fun he =>
        ((mem_dedupAux xs seen).mp ha).2 (he ▸ hx)
      have hbx : b ≠ x := fun he =>
        ((mem_dedupAux xs seen).mp hb).2 (he ▸ hx)
      rw [List.indexOf_cons_ne _ (Ne.symm hax), List.indexOf_cons_ne _ (Ne.symm hbx)]
      omega
    · rw [dedupAux, if_neg hx]
      refine List.pairwise_cons.mpr ⟨?_, ?_⟩
      · intro b hb
        have hbx : b ≠ x := fun he =>
          ((mem_dedupAux xs (x :: seen)).mp hb).2 (he ▸ List.mem_cons_self x seen)
        rw [List.indexOf_cons_self, List.indexOf_cons_ne _ (Ne.symm hbx)]
        omega
      · refine List.Pairwise.imp_of_mem ?_ (ih (x :: seen))
        intro a b ha hb hlt
        have hax : a ≠ x := fun he =>
          ((mem_dedupAux xs (x :: seen)).mp ha).2 (he ▸ List.mem_cons_self x seen)
        have hbx : b ≠ x := fun he =>
          ((mem_dedupAux xs (x :: seen)).mp hb).2 (he ▸ List.mem_cons_self x seen)
        rw [List.indexOf_cons_ne _ (Ne.symm hax), List.indexOf_cons_ne _ (Ne.symm hbx)]
        omega

/-- C8: `extractVariables` returns the `{{name}}` token names of the
content (as produced by the global regex scan, trimmed) with duplicates
removed, keeping the order of first appearance: the result is
duplicate-free, contains exactly the token names, and is sorted by each
name's first occurrence in the scan. -/
theorem extractVariables_spec (content : String) :
    (extractVariables content).Nodup ∧
    (∀ v, v ∈ extractVariables content ↔ v ∈ tokenNames content) ∧
    List.Pairwise (fun a b => (tokenNames content).indexOf a < (tokenNames content).indexOf b)
      (extractVariables content) := by
  refine ⟨nodup_dedupAux _ _, ?_, pairwise_dedupAux _ _⟩
  intro v
  rw [extractVariables, dedupFirst, mem_dedupAux]
  simp

/-- C10 fails: substituted values can reintroduce a placeholder for a
supplied key.  With content `{{a}}` and the single entry `a ↦ "{{a}}"`,
the output still contains (indeed is) the placeholder of the supplied key
`a` — the per-key pattern still matches it. -/
theorem processTemplate_can_keep_supplied_placeholder :
    processTemplate "\x7b\x7ba\x7d\x7d" [("a", "\x7b\x7ba\x7d\x7d")] = "\x7b\x7ba\x7d\x7d" ∧
    tryMatch ("a" : String).data
      (processTemplate "\x7b\x7ba\x7d\x7d" [("a", "\x7b\x7ba\x7d\x7d")]).data = some 5 := by
  decide

lemma expandRepl_of_no_dollar : ∀ (repl : List Char), (∀ c ∈ repl, c ≠ '$') →
    ∀ m b a, expandRepl m b a repl = repl := by
  intro repl
  induction repl with
  | nil => intro _ m b a; rfl
  | cons c rest ih =>
    intro h m b a
    cases rest with
    | nil => rfl
    | cons d rest2 =>
      rw [expandRepl, if_neg (h c (List.mem_cons_self _ _)),
        ih (fun x hx => h x (List.mem_cons_of_mem _ hx)) m b a]

lemma listStarts_iff : ∀ (a b : List Char), listStarts a b = true ↔ ∃ u, b = a ++ u := by
  intro a
  induction a with
  | nil => intro b; simp [listStarts]
  | cons x as ih =>
    intro b
    cases b with
    | nil =>
      simp only [listStarts, Bool.false_eq_true, false_iff]
      rintro ⟨u, hu⟩
      exact absurd hu (by simp)
    | cons y bs =>
      rw [listStarts, Bool.and_eq_true, beq_iff_eq, ih bs]
      constructor
      · rintro ⟨rfl, u, rfl⟩
        exact ⟨u, rfl⟩
      · rintro ⟨u, hu⟩
        rw [List.cons_append] at hu
        injection hu with h1 h2
        exact ⟨h1.symm, u, h2⟩

lemma listStarts_self_append (a b : List Char) : listStarts a (a ++ b) = true :=
  (listStarts_iff a (a ++ b)).mpr ⟨b, rfl⟩

lemma tryMatch_nil (key : List Char) : tryMatch key [] = none := rfl

lemma tryMatch_single (key : List Char) (c : Char) : tryMatch key [c] = none := rfl

lemma tryMatch_head_ne (key : List Char) {c : Char} (h : c ≠ '{') :
    ∀ t, tryMatch key (c :: t) = none := by
  intro t
  cases t with
  | nil => rfl
  | cons c2 t' => simp [tryMatch, h]

lemma tryMatch_second_ne (key : List Char) (c1 : Char) {c2 : Char} (h : c2 ≠ '{') (t : List Char) :
    tryMatch key (c1 :: c2 :: t) = none := by
  simp [tryMatch, h]

lemma goReplace_nil (key repl : List Char) : ∀ fuel B, goReplace key repl fuel B [] = [] := by
  intro fuel B
  cases fuel with
  | zero => rfl
  | succ f => rw [goReplace, tryMatch_nil]

lemma goReplace_walk (key repl : List Char) :
    ∀ (p : List Char), (∀ c ∈ p, c ≠ '{') →
    ∀ fuel B t, p.length + t.length ≤ fuel →
      goReplace key repl fuel B (p ++ t) =
        p ++ goReplace key repl (fuel - p.length) (B ++ p) t := by
  intro p
  induction p with
  | nil => intro _ fuel B t _; simp
  | cons c p' ih =>
    intro hp fuel B t hfuel
    cases fuel with
    | zero => simp at hfuel
    | succ f =>
      rw [List.cons_append, goReplace,
        tryMatch_head_ne key (hp c (List.mem_cons_self _ _)) _]
      rw [ih (fun x hx => hp x (List.mem_cons_of_mem _ hx)) f (B ++ [c]) t
        (by simp at hfuel ⊢; omega)]
      simp [Nat.succ_sub_succ]

lemma takeWhile_phblock_nil (k r : List Char) (hk : ∀ c ∈ k, isJsSpace c = false) :
    (k ++ '}' :: '}' :: r).takeWhile isJsSpace = [] := by
  cases k with
  | nil => simp [List.takeWhile_cons, show isJsSpace '}' = false from by decide]
  | cons c k' => simp [List.takeWhile_cons, hk c (List.mem_cons_self _ _)]

lemma tryMatch_ph_self (key r : List Char)
    (hk : ∀ c ∈ key, c ≠ '{' ∧ c ≠ '}' ∧ isJsSpace c = false) :
    tryMatch key ('{' :: '{' :: (key ++ '}' :: '}' :: r)) = some (key.length + 4) := by
  have h1 : isJsSpace '}' = false := by decide
  have hws : (key ++ '}' :: '}' :: r).takeWhile isJsSpace = [] :=
    takeWhile_phblock_nil key r (fun c hc => (hk c hc).2.2)
  simp only [tryMatch, and_self, if_true, hws, List.length_nil, pickN, matchRest,
    List.drop_zero, listStarts_self_append, List.drop_left, List.takeWhile_cons, h1,
    Bool.false_eq_true, if_false]
  simp only [Option.some.injEq]
  omega

lemma tryMatch_ph_ne (key k r : List Char)
    (hkey : ∀ c ∈ key, c ≠ '{' ∧ c ≠ '}')
    (hk : ∀ c ∈ k, c ≠ '{' ∧ c ≠ '}' ∧ isJsSpace c = false)
    (hne : k ≠ key) :
    tryMatch key ('{' :: '{' :: (k ++ '}' :: '}' :: r)) = none := by
  have hws : (k ++ '}' :: '}' :: r).takeWhile isJsSpace = [] :=
    takeWhile_phblock_nil k r (fun c hc => (hk c hc).2.2)
  simp only [tryMatch, and_self, if_true, hws, List.length_nil, pickN, matchRest,
    List.drop_zero]
  by_cases hs : listStarts key (k ++ '}' :: '}' :: r) = true
  swap
  · simp [hs]
  · obtain ⟨u, hu⟩ := (listStarts_iff _ _).mp hs
    rcases Nat.lt_or_ge k.length key.length with hlen | hlen
    · exfalso
      have htk := congrArg (List.take key.length) hu
      rw [List.take_left, List.take_append_eq_append_take,
        List.take_of_length_le (Nat.le_of_lt hlen)] at htk
      have hmem : '}' ∈ key := by
        rw [← htk]
        apply List.mem_append_right
        obtain ⟨m, hm⟩ : ∃ m, key.length - k.length = m + 1 :=
          ⟨key.length - k.length - 1, by omega⟩
        rw [hm, List.take_succ_cons]
        exact List.mem_cons_self _ _
      exact (hkey '}' hmem).2 rfl
    · have hk_eq : k.take key.length = key := by
        have htk := congrArg (List.take key.length) hu
        rw [List.take_left, List.take_append_eq_append_take,
          Nat.sub_eq_zero_of_le hlen, List.take_zero, List.append_nil] at htk
        exact htk
      have hlt : key.length < k.length := by
        rcases Nat.lt_or_ge key.length k.length with hx | hx
        · exact hx
        · exfalso
          apply hne
          have hxx : key.length = k.length := Nat.le_antisymm hlen hx
        -- wait: hlen : key.length ≤ k.length, hx : k.length ≤ key.length
          rw [← hk_eq, hxx, List.take_length]
      have hdrop : (k ++ '}' :: '}' :: r).drop key.length =
          k.drop key.length ++ '}' :: '}' :: r := by
        rw [List.drop_append_eq_append_drop, Nat.sub_eq_zero_of_le hlen, List.drop_zero]
      cases hd : k.drop key.length with
      | nil =>
        exfalso
        have := congrArg List.length hd
        simp at this
        omega
      | cons c0 kd =>
        have hc0 : c0 ∈ k := List.drop_subset _ _ (hd ▸ List.mem_cons_self c0 kd)
        cases kd with
        | nil =>
          simp [hs, hdrop, hd, List.takeWhile_cons, (hk c0 hc0).2.2, (hk c0 hc0).2.1]
        | cons c1 kd' =>
          simp [hs, hdrop, hd, List.takeWhile_cons, (hk c0 hc0).2.2, (hk c0 hc0).2.1]

lemma goReplace_step_match (key repl : List Char) (f : Nat) (B s : List Char) (L : Nat)
    (h : tryMatch key s = some L) :
    goReplace key repl (f + 1) B s =
      expandRepl (s.take L) B (s.drop L) repl ++
        goReplace key repl f (B ++ s.take L) (s.drop L) := by
  cases s with
  | nil => rw [tryMatch_nil] at h; exact absurd h (by simp)
  | cons c t => rw [goReplace.eq_3, h]

lemma goReplace_step_copy (key repl : List Char) (f : Nat) (B : List Char) (c : Char)
    (t : List Char) (h : tryMatch key (c :: t) = none) :
    goReplace key repl (f + 1) B (c :: t) = c :: goReplace key repl f (B ++ [c]) t := by
  rw [goReplace.eq_3, h]

lemma goReplace_joinSegs (key repl : List Char)
    (hkey : ∀ c ∈ key, c ≠ '{' ∧ c ≠ '}')
    (hrepl : ∀ c ∈ repl, c ≠ '{' ∧ c ≠ '}' ∧ c ≠ '$') :
    ∀ (segs : List Seg), (∀ sg ∈ segs, WfSeg sg) →
    ∀ fuel B, (joinSegs segs).length ≤ fuel →
      goReplace key repl fuel B (joinSegs segs) =
        joinSegs (segs.map (pass1 key repl)) := by
  intro segs
  induction segs with
  | nil => intro _ fuel B _; simp [joinSegs, goReplace_nil]
  | cons sg rest ih =>
    intro hwf fuel B hfuel
    have hwrest : ∀ x ∈ rest, WfSeg x := fun x hx => hwf x (List.mem_cons_of_mem _ hx)
    cases sg with
    | plain p =>
      have hwseg : ∀ c ∈ p, c ≠ '{' ∧ c ≠ '}' := hwf (Seg.plain p) (List.mem_cons_self _ _)
      have hplen : p.length + (joinSegs rest).length ≤ fuel := by
        have : (joinSegs (Seg.plain p :: rest)).length = p.length + (joinSegs rest).length := by
          simp [joinSegs]
        omega
      rw [show joinSegs (Seg.plain p :: rest) = p ++ joinSegs rest from rfl]
      rw [goReplace_walk key repl p (fun c hc => (hwseg c hc).1) fuel B _ hplen]
      rw [ih hwrest (fuel - p.length) (B ++ p) (by omega)]
      rfl
    | ph k =>
      have hwseg : ∀ c ∈ k, c ≠ '{' ∧ c ≠ '}' ∧ isJsSpace c = false :=
        hwf (Seg.ph k) (List.mem_cons_self _ _)
      have hlen_s : (joinSegs (Seg.ph k :: rest)).length =
          k.length + 4 + (joinSegs rest).length := by
        simp [joinSegs]
        omega
      by_cases hkk : k = key
      · subst hkk
        obtain ⟨f, rfl⟩ : ∃ f, fuel = f + 1 := ⟨fuel - 1, by omega⟩
        rw [show joinSegs (Seg.ph k :: rest) = '{' :: '{' :: (k ++ '}' :: '}' :: joinSegs rest)
          from rfl]
        rw [goReplace_step_match k repl f B _ _ (tryMatch_ph_self k (joinSegs rest) hwseg)]
        have hsplit : ('{' : Char) :: '{' :: (k ++ '}' :: '}' :: joinSegs rest) =
            ('{' :: '{' :: k ++ ['}', '}']) ++ joinSegs rest := by
          simp
        have hlen4 : ('{' :: '{' :: k ++ ['}', '}'] : List Char).length = k.length + 4 := by
          simp
        rw [hsplit, List.take_left' hlen4, List.drop_left' hlen4]
        rw [expandRepl_of_no_dollar repl (fun c hc => (hrepl c hc).2.2) _ _ _]
        rw [ih hwrest f _ (by omega)]
        simp [pass1, joinSegs]
      · obtain ⟨f1, rfl⟩ : ∃ f1, fuel = f1 + 1 := ⟨fuel - 1, by omega⟩
        obtain ⟨f2, rfl⟩ : ∃ f2, f1 = f2 + 1 := ⟨f1 - 1, by omega⟩
        rw [show joinSegs (Seg.ph k :: rest) = '{' :: '{' :: (k ++ '}' :: '}' :: joinSegs rest)
          from rfl]
        rw [goReplace_step_copy key repl (f2 + 1) B '{' _
          (tryMatch_ph_ne key k (joinSegs rest) hkey hwseg hkk)]
        have hsecond : tryMatch key ('{' :: (k ++ '}' :: '}' :: joinSegs rest)) = none := by
          cases k with
          | nil => exact tryMatch_second_ne key '{' (by decide) _
          | cons c0 k' =>
            exact tryMatch_second_ne key '{' ((hwseg c0 (List.mem_cons_self _ _)).1) _
        rw [goReplace_step_copy key repl f2 (B ++ ['{']) '{' _ hsecond]
        have hreassoc : k ++ '}' :: '}' :: joinSegs rest = (k ++ ['}', '}']) ++ joinSegs rest := by
          simp
        have hwalkchars : ∀ c ∈ k ++ ['}', '}'], c ≠ '{' := by
          intro c hc
          rcases List.mem_append.mp hc with hc' | hc'
          · exact (hwseg c hc').1
          · rcases List.mem_cons.mp hc' with rfl | hc''
            · decide
            · rcases List.mem_cons.mp hc'' with rfl | hc'''
              · decide
              · exact absurd hc''' (List.not_mem_nil c)
        have hwalklen : (k ++ ['}', '}'] : List Char).length + (joinSegs rest).length ≤ f2 := by
          have : (k ++ ['}', '}'] : List Char).length = k.length + 2 := by simp
          omega
        rw [hreassoc, goReplace_walk key repl (k ++ ['}', '}']) hwalkchars f2 _ _ hwalklen]
        rw [ih hwrest _ _ (by
          have : (k ++ ['}', '}'] : List Char).length = k.length + 2 := by simp
          omega)]
        simp [pass1, hkk, joinSegs]

lemma pass1_wf (key repl : List Char) (hrepl : ∀ c ∈ repl, c ≠ '{' ∧ c ≠ '}' ∧ c ≠ '$') :
    ∀ sg, WfSeg sg → WfSeg (pass1 key repl sg) := by
  intro sg hsg
  cases sg with
  | plain p => exact hsg
  | ph k =>
    rw [pass1]
    by_cases h : k = key
    · rw [if_pos h]
      intro c hc
      exact ⟨(hrepl c hc).1, (hrepl c hc).2.1⟩
    · rw [if_neg h]
      exact hsg

lemma substSeg_nil : ∀ sg, substSeg [] sg = sg := by
  intro sg
  cases sg <;> simp [substSeg]

lemma substSeg_pass1 (k v : String) (vs : List (String × String)) :
    ∀ sg, substSeg vs (pass1 k.data (replTextOf k v) sg) = substSeg ((k, v) :: vs) sg := by
  intro sg
  cases sg with
  | plain p => simp [pass1, substSeg]
  | ph kk =>
    by_cases h : kk = k.data
    · have hfind : List.find? (fun kv => kv.1.data == kk) ((k, v) :: vs) = some (k, v) :=
        List.find?_cons_of_pos _ (by simp [h])
      rw [pass1, if_pos h]
      simp [substSeg, hfind]
    · have hfind : List.find? (fun kv => kv.1.data == kk) ((k, v) :: vs) =
          List.find? (fun kv => kv.1.data == kk) vs :=
        List.find?_cons_of_neg _ (by simp; exact fun he => h he.symm)
      rw [pass1, if_neg h]
      simp [substSeg, hfind]

lemma replTextOf_safe (k v : String) (hk : SafeStr k) (hv : SafeStr v) :
    ∀ c ∈ replTextOf k v, c ≠ '{' ∧ c ≠ '}' ∧ c ≠ '$' := by
  intro c hc
  rw [replTextOf] at hc
  by_cases hvv : v = ""
  · rw [if_pos hvv] at hc
    rcases List.mem_cons.mp hc with rfl | hc'
    · refine ⟨by decide, by decide, by decide⟩
    · rcases List.mem_append.mp hc' with hk' | hk'
      · exact hk c hk'
      · have : c = ']' := by simpa using hk'
        subst this
        refine ⟨by decide, by decide, by decide⟩
  · rw [if_neg hvv] at hc
    exact hv c hc

lemma foldl_replace_joinSegs :
    ∀ (vs : List (String × String)) (segs : List Seg),
      (∀ sg ∈ segs, WfSeg sg) → (∀ kv ∈ vs, SafeStr kv.1 ∧ SafeStr kv.2) →
      vs.foldl (fun acc kv => replaceAll kv.1.data (replTextOf kv.1 kv.2) acc)
          (joinSegs segs) =
        joinSegs (segs.map (substSeg vs)) := by
  intro vs
  induction vs with
  | nil =>
    intro segs _ _
    simp only [List.foldl_nil]
    rw [List.map_congr_left (fun sg _ => substSeg_nil sg)]
    simp
  | cons kv vs ih =>
    intro segs hw hsafe
    obtain ⟨k, v⟩ := kv
    simp only [List.foldl_cons]
    have hsafe_k : SafeStr k := (hsafe (k, v) (List.mem_cons_self _ _)).1
    have hsafe_v : SafeStr v := (hsafe (k, v) (List.mem_cons_self _ _)).2
    have hkey : ∀ c ∈ k.data, c ≠ '{' ∧ c ≠ '}' := fun c hc =>
      ⟨(hsafe_k c hc).1, (hsafe_k c hc).2.1⟩
    have hrepl := replTextOf_safe k v hsafe_k hsafe_v
    have hpass : replaceAll k.data (replTextOf k v) (joinSegs segs) =
        joinSegs (segs.map (pass1 k.data (replTextOf k v))) := by
      rw [replaceAll]
      exact goReplace_joinSegs _ _ hkey hrepl segs hw _ [] (Nat.le_refl _)
    rw [hpass]
    rw [ih (segs.map (pass1 k.data (replTextOf k v)))
      (fun sg hsg => by
        obtain ⟨sg0, hsg0, rfl⟩ := List.mem_map.mp hsg
        exact pass1_wf _ _ hrepl sg0 (hw sg0 hsg0))
      (fun kv0 hkv0 => hsafe kv0 (List.mem_cons_of_mem _ hkv0))]
    rw [List.map_map]
    exact congrArg joinSegs (List.map_congr_left (fun sg _ => substSeg_pass1 k v vs sg))

/-- C10 (amended): `processTemplate` performs, for each map entry in
order, a global replacement of that entry's `\{\{\s*key\s*\}\}` pattern by
the value (bracketed key when the value is empty); a pass replaces the
occurrences present at that time, so substituted text can recombine into
new placeholders and the claim's "no remaining placeholder for a supplied
key" does not hold in general.  For contents made of brace-free literal
text and simple `{{name}}` placeholders, with brace- and dollar-free keys
and values, the result substitutes exactly the placeholders of supplied
keys (first matching entry; value if non-empty, bracketed key otherwise)
and leaves everything else — including placeholders of keys not in the
map — unchanged. -/
theorem processTemplate_segments (segs : List Seg) (vars : List (String × String))
    (hsegs : ∀ sg ∈ segs, WfSeg sg)
    (hvars : ∀ kv ∈ vars, SafeStr kv.1 ∧ SafeStr kv.2) :
    processTemplate (String.mk (joinSegs segs)) vars =
      String.mk (joinSegs (segs.map (substSeg vars))) := by
  rw [processTemplate]
  exact congrArg String.mk (foldl_replace_joinSegs vars segs hsegs hvars)

theorem processTemplate_segments_witness :
    (∀ sg ∈ [Seg.plain ['H', 'i', ' '], Seg.ph ['n'], Seg.plain [' '], Seg.ph ['q'],
        Seg.ph ['e']], WfSeg sg) ∧
    (∀ kv ∈ [("n", "Bob"), ("e", "")], SafeStr (kv.1 : String) ∧ SafeStr kv.2) ∧
    processTemplate (String.mk (joinSegs [Seg.plain ['H', 'i', ' '], Seg.ph ['n'],
        Seg.plain [' '], Seg.ph ['q'], Seg.ph ['e']])) [("n", "Bob"), ("e", "")] =
      String.mk (joinSegs ([Seg.plain ['H', 'i', ' '], Seg.ph ['n'], Seg.plain [' '],
        Seg.ph ['q'], Seg.ph ['e']].map (substSeg [("n", "Bob"), ("e", "")]))) :=
  ⟨by decide, by decide,
    processTemplate_segments
      [Seg.plain ['H', 'i', ' '], Seg.ph ['n'], Seg.plain [' '], Seg.ph ['q'], Seg.ph ['e']]
      [("n", "Bob"), ("e", "")] (by decide) (by decide)⟩
